import Mathlib

/-!
Shallow embedding of the Staker contract
(`src/packages/core/contracts/oracle/implementation/Staker.sol`).

Modelling conventions:
* `uint256` values become `Nat`.  Solidity 0.8 checked subtraction is written
  with `Nat` truncated subtraction; every theorem that depends on a
  subtraction comes with the inequality showing it does not truncate.
* The external clock (`getCurrentTime()`) is passed to every operation as a
  `now : Nat` argument; the phase oracle (`inActiveReveal()`) is passed as a
  `reveal : Bool` argument (in the base contract it returns `false`, but the
  spec treats it as an opaque external gate, so it is kept symbolic).
* Addresses are modelled as `Fin n` for an arbitrary address-space size `n`,
  so that the sums over all voters are finite sums.
* Token transfers (`transferFrom`, `transfer`, `mint`) are assumed to
  succeed; the amount moved is returned to the caller where the contract
  returns or sends it.  A Solidity `require` failure reverts the whole call,
  which is modelled with `Except`: an `Except.error` result means the state
  is left exactly as it was.
-/

namespace Staker

/-- The fixed-point scale `1e18` used by the contract. -/
def SCALE : Nat := 1000000000000000000

/-- Per-voter record, mirroring `struct VoterStake` in `Staker.sol`.
`delegate` is an address, modelled as `Nat`. -/
structure VoterStake where
  activeStake : Nat
  pendingUnstake : Nat
  pendingStake : Nat
  rewardsPaidPerToken : Nat
  outstandingRewards : Nat
  unstakeRequestTime : Nat
  lastRequestIndexConsidered : Nat
  delegate : Nat
  deriving DecidableEq

/-- The default-valued voter record (Solidity mappings default to zero). -/
def initVoterStake : VoterStake := ⟨0, 0, 0, 0, 0, 0, 0, 0⟩

/-- Contract storage, mirroring the state variables of `Staker.sol`.
`n` is the size of the address space. -/
structure StakerState (n : Nat) where
  emissionRate : Nat
  cumulativeActiveStake : Nat
  cumulativePendingStake : Nat
  rewardPerTokenStored : Nat
  lastUpdateTime : Nat
  unstakeCoolDown : Nat
  voterStakes : Fin n → VoterStake

/-- Storage right after the constructor ran: the constructor sets
`emissionRate` and `unstakeCoolDown`, every other slot is zero. -/
def initState (n emissionRate coolDown : Nat) : StakerState n :=
  ⟨emissionRate, 0, 0, 0, 0, coolDown, fun _ => initVoterStake⟩

variable {n : Nat}

/-- `getCumulativeStake()` view. -/
def getCumulativeStake (s : StakerState n) : Nat :=
  s.cumulativeActiveStake + s.cumulativePendingStake

/-- `rewardPerToken()` view at external time `now`. -/
def rewardPerToken (s : StakerState n) (now : Nat) : Nat :=
  if getCumulativeStake s = 0 then s.rewardPerTokenStored
  else
    s.rewardPerTokenStored +
      (now - s.lastUpdateTime) * s.emissionRate * SCALE / getCumulativeStake s

/-- `getVoterStake(voter)` view: active plus pending stake. -/
def getVoterStake (s : StakerState n) (v : Fin n) : Nat :=
  (s.voterStakes v).activeStake + (s.voterStakes v).pendingStake

/-- `outstandingRewards(voter)` view at external time `now`. -/
def outstandingRewards (s : StakerState n) (v : Fin n) (now : Nat) : Nat :=
  getVoterStake s v * (rewardPerToken s now - (s.voterStakes v).rewardsPaidPerToken) / SCALE
    + (s.voterStakes v).outstandingRewards

/-- `_updateReward(voterAddress)`: stores the fresh accumulator and the time,
then (when a voter is given, i.e. `voterAddress != address(0)`) settles that
voter.  As in the source, the voter's rewards are recomputed after the global
fields were stored. -/
def updateReward (s : StakerState n) (voter : Option (Fin n)) (now : Nat) :
    StakerState n :=
  let newRewardPerToken := rewardPerToken s now
  let s1 : StakerState n :=
    { s with rewardPerTokenStored := newRewardPerToken, lastUpdateTime := now }
  match voter with
  | none => s1
  | some v =>
      { s1 with
          voterStakes := Function.update s1.voterStakes v
            { s1.voterStakes v with
                outstandingRewards := outstandingRewards s1 v now
                rewardsPaidPerToken := newRewardPerToken } }

/-- `_updateActiveStake(voterAddress)`: outside an active reveal the voter's
pending stake is promoted to active stake and the cumulative counters are
shifted; inside an active reveal nothing happens. -/
def updateActiveStake (s : StakerState n) (v : Fin n) (reveal : Bool) :
    StakerState n :=
  if reveal then s
  else
    { s with
        cumulativeActiveStake :=
          s.cumulativeActiveStake + (s.voterStakes v).pendingStake
        cumulativePendingStake :=
          s.cumulativePendingStake - (s.voterStakes v).pendingStake
        voterStakes := Function.update s.voterStakes v
          { s.voterStakes v with
              activeStake :=
                (s.voterStakes v).activeStake + (s.voterStakes v).pendingStake
              pendingStake := 0 } }

/-- `_updateTrackers(voterAddress)`: reward settlement then stake promotion. -/
def updateTrackers (s : StakerState n) (v : Fin n) (now : Nat) (reveal : Bool) :
    StakerState n :=
  updateActiveStake (updateReward s (some v) now) v reveal

/-- `getStartingIndexForStaker()` of the base contract returns `0`. -/
def getStartingIndexForStaker : Nat := 0

/-- The first step of `stake`: a voter with zero cumulative staked balance
gets `lastRequestIndexConsidered` shortcut to `getStartingIndexForStaker()`. -/
def stakeShortcut (s : StakerState n) (v : Fin n) : StakerState n :=
  if getVoterStake s v + (s.voterStakes v).pendingStake = 0 then
    { s with
        voterStakes := Function.update s.voterStakes v
          { s.voterStakes v with
              lastRequestIndexConsidered := getStartingIndexForStaker } }
  else s

/-- `stake(amount)`.  Pulls tokens from the caller (assumed to succeed) and
credits them to pending stake during an active reveal, to active stake
otherwise. -/
def stake (s : StakerState n) (v : Fin n) (amount now : Nat) (reveal : Bool) :
    StakerState n :=
  let s1 := updateTrackers (stakeShortcut s v) v now reveal
  if reveal then
    { s1 with
        voterStakes := Function.update s1.voterStakes v
          { s1.voterStakes v with
              pendingStake := (s1.voterStakes v).pendingStake + amount }
        cumulativePendingStake := s1.cumulativePendingStake + amount }
  else
    { s1 with
        voterStakes := Function.update s1.voterStakes v
          { s1.voterStakes v with
              activeStake := (s1.voterStakes v).activeStake + amount }
        cumulativeActiveStake := s1.cumulativeActiveStake + amount }

/-- `requestUnstake(amount)`.  The three `require`s of the source appear in
source order; an error rolls the whole call back. -/
def requestUnstake (s : StakerState n) (v : Fin n) (amount now : Nat)
    (reveal : Bool) : Except String (StakerState n) :=
  if reveal then Except.error "In an active reveal phase"
  else
    let s1 := updateTrackers s v now reveal
    if amount ≤ (s1.voterStakes v).activeStake then
      if (s1.voterStakes v).pendingUnstake = 0 then
        Except.ok
          { s1 with
              cumulativeActiveStake := s1.cumulativeActiveStake - amount
              voterStakes := Function.update s1.voterStakes v
                { s1.voterStakes v with
                    pendingUnstake := amount
                    activeStake := (s1.voterStakes v).activeStake - amount
                    unstakeRequestTime := now } }
      else Except.error "Have previous request unstake"
    else Except.error "Bad request amount"

/-- `executeUnstake()`.  Returns the tokens sent to the caller along with the
new state.  The pending-unstake and request-time slots are cleared only in
the `tokensToSend > 0` branch, exactly as in the source. -/
def executeUnstake (s : StakerState n) (v : Fin n) (now : Nat) (reveal : Bool) :
    Except String (StakerState n × Nat) :=
  let s1 := updateTrackers s v now reveal
  if (s1.voterStakes v).unstakeRequestTime ≠ 0 ∧
      (s1.voterStakes v).unstakeRequestTime + s1.unstakeCoolDown ≤ now then
    let tokensToSend := (s1.voterStakes v).pendingUnstake
    if 0 < tokensToSend then
      Except.ok
        ({ s1 with
            voterStakes := Function.update s1.voterStakes v
              { s1.voterStakes v with pendingUnstake := 0, unstakeRequestTime := 0 } },
          tokensToSend)
    else Except.ok (s1, tokensToSend)
  else Except.error "Unstake time not passed"

/-- `withdrawRewards()`.  Mints the settled outstanding rewards to the caller
(minting assumed to succeed) and returns the amount minted. -/
def withdrawRewards (s : StakerState n) (v : Fin n) (now : Nat) (reveal : Bool) :
    StakerState n × Nat :=
  let s1 := updateTrackers s v now reveal
  let tokensToMint := (s1.voterStakes v).outstandingRewards
  if 0 < tokensToMint then
    ({ s1 with
        voterStakes := Function.update s1.voterStakes v
          { s1.voterStakes v with outstandingRewards := 0 } },
      tokensToMint)
  else (s1, tokensToMint)

/-- `exit()`: `executeUnstake()` then `withdrawRewards()`.  A revert inside
`executeUnstake` aborts the whole call, as for any internal Solidity call.
On success the returned amount is the rewards paid by `withdrawRewards`. -/
def exit (s : StakerState n) (v : Fin n) (now : Nat) (reveal : Bool) :
    Except String (StakerState n × Nat) :=
  match executeUnstake s v now reveal with
  | Except.error e => Except.error e
  | Except.ok (s1, _) => Except.ok (withdrawRewards s1 v now reveal)

/-- `setEmissionRate(rate)` (owner-only; authorization is enforced by the
caller layer and out of scope here): force-settles the global accumulator
with `_updateReward(address(0))`, then stores the new rate. -/
def setEmissionRate (s : StakerState n) (rate now : Nat) : StakerState n :=
  let s1 := updateReward s none now
  { s1 with emissionRate := rate }

/-- `setUnstakeCoolDown(duration)` (owner-only): stores the new cooldown. -/
def setUnstakeCoolDown (s : StakerState n) (d : Nat) : StakerState n :=
  { s with unstakeCoolDown := d }

/-- One ledger operation together with the external inputs (caller, clock
reading, phase flag) it observes. -/
inductive Op (n : Nat) where
  | stake (v : Fin n) (amount now : Nat) (reveal : Bool)
  | requestUnstake (v : Fin n) (amount now : Nat) (reveal : Bool)
  | executeUnstake (v : Fin n) (now : Nat) (reveal : Bool)
  | withdrawRewards (v : Fin n) (now : Nat) (reveal : Bool)
  | exit (v : Fin n) (now : Nat) (reveal : Bool)
  | setEmissionRate (rate now : Nat)
  | setUnstakeCoolDown (d : Nat)

/-- Transaction semantics of one operation: a reverted call leaves the
state unchanged. -/
def step (s : StakerState n) : Op n → StakerState n
  | Op.stake v amount now reveal => stake s v amount now reveal
  | Op.requestUnstake v amount now reveal =>
      match requestUnstake s v amount now reveal with
      | Except.ok s1 => s1
      | Except.error _ => s
  | Op.executeUnstake v now reveal =>
      match executeUnstake s v now reveal with
      | Except.ok (s1, _) => s1
      | Except.error _ => s
  | Op.withdrawRewards v now reveal => (withdrawRewards s v now reveal).1
  | Op.exit v now reveal =>
      match exit s v now reveal with
      | Except.ok (s1, _) => s1
      | Except.error _ => s
  | Op.setEmissionRate rate now => setEmissionRate s rate now
  | Op.setUnstakeCoolDown d => setUnstakeCoolDown s d

/-- Run a finite sequence of operations. -/
def run (s : StakerState n) (ops : List (Op n)) : StakerState n :=
  ops.foldl step s

/-- The clock reading an operation observes, if it observes one. -/
def opNow : Op n → Option Nat
  | Op.stake _ _ now _ => some now
  | Op.requestUnstake _ _ now _ => some now
  | Op.executeUnstake _ now _ => some now
  | Op.withdrawRewards _ now _ => some now
  | Op.exit _ now _ => some now
  | Op.setEmissionRate _ now => some now
  | Op.setUnstakeCoolDown _ => none

/-- Whether an `Except` result is a success. -/
def isOk : Except ε α → Bool
  | Except.ok _ => true
  | Except.error _ => false

/-- The success value of an `Except` result, if any. -/
def okValue : Except ε α → Option α
  | Except.ok a => some a
  | Except.error _ => none

/-- The two cumulative counters really are the sums of the per-voter
fields. -/
def Inv (s : StakerState n) : Prop :=
  s.cumulativeActiveStake = ∑ w, (s.voterStakes w).activeStake ∧
  s.cumulativePendingStake = ∑ w, (s.voterStakes w).pendingStake

/-! ### Field bookkeeping lemmas -/

theorem updateReward_stakeFields (s : StakerState n) (ov : Option (Fin n))
    (now : Nat) (w : Fin n) :
    ((updateReward s ov now).voterStakes w).activeStake = (s.voterStakes w).activeStake ∧
    ((updateReward s ov now).voterStakes w).pendingStake = (s.voterStakes w).pendingStake ∧
    ((updateReward s ov now).voterStakes w).pendingUnstake = (s.voterStakes w).pendingUnstake ∧
    ((updateReward s ov now).voterStakes w).unstakeRequestTime
      = (s.voterStakes w).unstakeRequestTime := by
  unfold updateReward
  cases ov with
  | none => exact ⟨rfl, rfl, rfl, rfl⟩
  | some v =>
    by_cases hw : w = v
    · subst hw; simp
    · simp [Function.update_noteq hw]

theorem updateReward_globals (s : StakerState n) (ov : Option (Fin n)) (now : Nat) :
    (updateReward s ov now).cumulativeActiveStake = s.cumulativeActiveStake ∧
    (updateReward s ov now).cumulativePendingStake = s.cumulativePendingStake ∧
    (updateReward s ov now).unstakeCoolDown = s.unstakeCoolDown ∧
    (updateReward s ov now).emissionRate = s.emissionRate ∧
    (updateReward s ov now).rewardPerTokenStored = rewardPerToken s now ∧
    (updateReward s ov now).lastUpdateTime = now := by
  unfold updateReward
  cases ov <;> exact ⟨rfl, rfl, rfl, rfl, rfl, rfl⟩

theorem updateReward_paid (s : StakerState n) (v : Fin n) (now : Nat) :
    ((updateReward s (some v) now).voterStakes v).rewardsPaidPerToken
      = rewardPerToken s now := by
  unfold updateReward; simp

theorem updateActiveStake_true (s : StakerState n) (v : Fin n) :
    updateActiveStake s v true = s := by
  unfold updateActiveStake; simp

theorem updateActiveStake_rewardFields (s : StakerState n) (v : Fin n)
    (reveal : Bool) (w : Fin n) :
    ((updateActiveStake s v reveal).voterStakes w).outstandingRewards
      = (s.voterStakes w).outstandingRewards ∧
    ((updateActiveStake s v reveal).voterStakes w).rewardsPaidPerToken
      = (s.voterStakes w).rewardsPaidPerToken ∧
    ((updateActiveStake s v reveal).voterStakes w).pendingUnstake
      = (s.voterStakes w).pendingUnstake ∧
    ((updateActiveStake s v reveal).voterStakes w).unstakeRequestTime
      = (s.voterStakes w).unstakeRequestTime := by
  unfold updateActiveStake
  cases reveal with
  | true => simp
  | false =>
    by_cases hw : w = v
    · subst hw; simp
    · simp [Function.update_noteq hw]

theorem updateActiveStake_globals (s : StakerState n) (v : Fin n) (reveal : Bool) :
    (updateActiveStake s v reveal).rewardPerTokenStored = s.rewardPerTokenStored ∧
    (updateActiveStake s v reveal).lastUpdateTime = s.lastUpdateTime ∧
    (updateActiveStake s v reveal).unstakeCoolDown = s.unstakeCoolDown ∧
    (updateActiveStake s v reveal).emissionRate = s.emissionRate := by
  unfold updateActiveStake
  cases reveal <;> simp

theorem updateActiveStake_false_fields (s : StakerState n) (v : Fin n) :
    ((updateActiveStake s v false).voterStakes v).activeStake
      = (s.voterStakes v).activeStake + (s.voterStakes v).pendingStake ∧
    ((updateActiveStake s v false).voterStakes v).pendingStake = 0 ∧
    (updateActiveStake s v false).cumulativeActiveStake
      = s.cumulativeActiveStake + (s.voterStakes v).pendingStake ∧
    (updateActiveStake s v false).cumulativePendingStake
      = s.cumulativePendingStake - (s.voterStakes v).pendingStake := by
  unfold updateActiveStake; simp

theorem updateActiveStake_frame (s : StakerState n) (v : Fin n) (reveal : Bool)
    (w : Fin n) (hw : w ≠ v) :
    (updateActiveStake s v reveal).voterStakes w = s.voterStakes w := by
  unfold updateActiveStake
  cases reveal with
  | true => simp
  | false => simp [Function.update_noteq hw]

theorem updateTrackers_miscFields (s : StakerState n) (v : Fin n) (now : Nat)
    (reveal : Bool) (w : Fin n) :
    ((updateTrackers s v now reveal).voterStakes w).pendingUnstake
      = (s.voterStakes w).pendingUnstake ∧
    ((updateTrackers s v now reveal).voterStakes w).unstakeRequestTime
      = (s.voterStakes w).unstakeRequestTime ∧
    (updateTrackers s v now reveal).unstakeCoolDown = s.unstakeCoolDown ∧
    (updateTrackers s v now reveal).emissionRate = s.emissionRate := by
  unfold updateTrackers
  refine ⟨?_, ?_, ?_, ?_⟩
  · exact (updateActiveStake_rewardFields _ v reveal w).2.2.1.trans
      (updateReward_stakeFields s (some v) now w).2.2.1
  · exact (updateActiveStake_rewardFields _ v reveal w).2.2.2.trans
      (updateReward_stakeFields s (some v) now w).2.2.2
  · exact (updateActiveStake_globals _ v reveal).2.2.1.trans
      (updateReward_globals s (some v) now).2.2.1
  · exact (updateActiveStake_globals _ v reveal).2.2.2.trans
      (updateReward_globals s (some v) now).2.2.2.1

theorem updateTrackers_stored (s : StakerState n) (v : Fin n) (now : Nat)
    (reveal : Bool) :
    (updateTrackers s v now reveal).rewardPerTokenStored = rewardPerToken s now ∧
    (updateTrackers s v now reveal).lastUpdateTime = now := by
  unfold updateTrackers
  exact ⟨(updateActiveStake_globals _ v reveal).1.trans
      (updateReward_globals s (some v) now).2.2.2.2.1,
    (updateActiveStake_globals _ v reveal).2.1.trans
      (updateReward_globals s (some v) now).2.2.2.2.2⟩

/-! ### Reward accumulator lemmas -/

theorem le_rewardPerToken (s : StakerState n) (now : Nat) :
    s.rewardPerTokenStored ≤ rewardPerToken s now := by
  unfold rewardPerToken
  split
  · exact Nat.le_refl _
  · exact Nat.le_add_right _ _

theorem rewardPerToken_settled (s : StakerState n) (now : Nat)
    (h : s.lastUpdateTime = now) :
    rewardPerToken s now = s.rewardPerTokenStored := by
  unfold rewardPerToken
  split
  · rfl
  · simp [h]

/-! ### Sums over voters -/

theorem sum_proj_update (f : Fin n → VoterStake) (v : Fin n) (r : VoterStake)
    (proj : VoterStake → Nat) :
    (∑ w, proj (Function.update f v r w)) + proj (f v)
      = (∑ w, proj (f w)) + proj r := by
  have key : ∀ g : Fin n → Nat,
      ∑ w, g w = g v + ∑ w ∈ Finset.univ.erase v, g w := by
    intro g
    exact (Finset.add_sum_erase _ g (Finset.mem_univ v)).symm
  have hupd : ∑ w ∈ Finset.univ.erase v, proj (Function.update f v r w)
      = ∑ w ∈ Finset.univ.erase v, proj (f w) := by
    refine Finset.sum_congr rfl ?_
    intro w hw
    rw [Function.update_noteq (Finset.ne_of_mem_erase hw)]
  rw [key (fun w => proj (Function.update f v r w)), key (fun w => proj (f w))]
  simp only [Function.update_same, hupd]
  omega

theorem proj_le_sum (f : Fin n → VoterStake) (v : Fin n) (proj : VoterStake → Nat) :
    proj (f v) ≤ ∑ w, proj (f w) :=
  Finset.single_le_sum (fun i _ => Nat.zero_le (proj (f i))) (Finset.mem_univ v)

theorem sum_proj_congr (f g : Fin n → VoterStake) (proj : VoterStake → Nat)
    (h : ∀ w, proj (g w) = proj (f w)) :
    ∑ w, proj (g w) = ∑ w, proj (f w) :=
  Finset.sum_congr rfl fun w _ => h w

/-! ### Preservation of the cumulative-sum invariant -/

theorem inv_updateReward (s : StakerState n) (ov : Option (Fin n)) (now : Nat)
    (h : Inv s) : Inv (updateReward s ov now) := by
  obtain ⟨h1, h2⟩ := h
  constructor
  · rw [(updateReward_globals s ov now).1, h1]
    exact (sum_proj_congr _ _ _ fun w => (updateReward_stakeFields s ov now w).1).symm
  · rw [(updateReward_globals s ov now).2.1, h2]
    exact (sum_proj_congr _ _ _ fun w => (updateReward_stakeFields s ov now w).2.1).symm

theorem inv_updateActiveStake (s : StakerState n) (v : Fin n) (reveal : Bool)
    (h : Inv s) : Inv (updateActiveStake s v reveal) := by
  cases reveal with
  | true => rw [updateActiveStake_true]; exact h
  | false =>
    obtain ⟨h1, h2⟩ := h
    unfold updateActiveStake
    simp only [Bool.false_eq_true, if_false]
    constructor
    · have := sum_proj_update s.voterStakes v
        { s.voterStakes v with
            activeStake := (s.voterStakes v).activeStake + (s.voterStakes v).pendingStake
            pendingStake := 0 } (fun r => r.activeStake)
      simp only at this ⊢
      omega
    · have hs := sum_proj_update s.voterStakes v
        { s.voterStakes v with
            activeStake := (s.voterStakes v).activeStake + (s.voterStakes v).pendingStake
            pendingStake := 0 } (fun r => r.pendingStake)
      have hle := proj_le_sum s.voterStakes v (fun r => r.pendingStake)
      simp only at hs hle ⊢
      omega

theorem inv_updateTrackers (s : StakerState n) (v : Fin n) (now : Nat)
    (reveal : Bool) (h : Inv s) : Inv (updateTrackers s v now reveal) :=
  inv_updateActiveStake _ v reveal (inv_updateReward s (some v) now h)

theorem inv_update_nonstake (s : StakerState n) (v : Fin n) (r : VoterStake)
    (ha : r.activeStake = (s.voterStakes v).activeStake)
    (hp : r.pendingStake = (s.voterStakes v).pendingStake)
    (h : Inv s) :
    Inv { s with voterStakes := Function.update s.voterStakes v r } := by
  obtain ⟨h1, h2⟩ := h
  constructor
  · rw [h1]
    refine (sum_proj_congr _ _ _ ?_).symm
    intro w
    by_cases hw : w = v
    · subst hw; simp [ha]
    · simp [Function.update_noteq hw]
  · rw [h2]
    refine (sum_proj_congr _ _ _ ?_).symm
    intro w
    by_cases hw : w = v
    · subst hw; simp [hp]
    · simp [Function.update_noteq hw]

theorem inv_add_active (s : StakerState n) (v : Fin n) (amount : Nat)
    (h : Inv s) :
    Inv { s with
        voterStakes := Function.update s.voterStakes v
          { s.voterStakes v with
              activeStake := (s.voterStakes v).activeStake + amount }
        cumulativeActiveStake := s.cumulativeActiveStake + amount } := by
  obtain ⟨h1, h2⟩ := h
  constructor
  · have := sum_proj_update s.voterStakes v
      { s.voterStakes v with
          activeStake := (s.voterStakes v).activeStake + amount }
      (fun r => r.activeStake)
    simp only at this ⊢
    omega
  · simp only [h2]
    refine (sum_proj_congr _ _ _ ?_).symm
    intro w
    by_cases hw : w = v
    · subst hw; simp
    · simp [Function.update_noteq hw]

theorem inv_add_pending (s : StakerState n) (v : Fin n) (amount : Nat)
    (h : Inv s) :
    Inv { s with
        voterStakes := Function.update s.voterStakes v
          { s.voterStakes v with
              pendingStake := (s.voterStakes v).pendingStake + amount }
        cumulativePendingStake := s.cumulativePendingStake + amount } := by
  obtain ⟨h1, h2⟩ := h
  constructor
  · simp only [h1]
    refine (sum_proj_congr _ _ _ ?_).symm
    intro w
    by_cases hw : w = v
    · subst hw; simp
    · simp [Function.update_noteq hw]
  · have := sum_proj_update s.voterStakes v
      { s.voterStakes v with
          pendingStake := (s.voterStakes v).pendingStake + amount }
      (fun r => r.pendingStake)
    simp only at this ⊢
    omega

theorem stake_true_eq (s : StakerState n) (v : Fin n) (amount now : Nat) :
    stake s v amount now true =
      { updateTrackers (stakeShortcut s v) v now true with
          voterStakes :=
            Function.update (updateTrackers (stakeShortcut s v) v now true).voterStakes v
              { (updateTrackers (stakeShortcut s v) v now true).voterStakes v with
                  pendingStake :=
                    ((updateTrackers (stakeShortcut s v) v now true).voterStakes v).pendingStake
                      + amount }
          cumulativePendingStake :=
            (updateTrackers (stakeShortcut s v) v now true).cumulativePendingStake + amount } :=
  rfl

theorem stake_false_eq (s : StakerState n) (v : Fin n) (amount now : Nat) :
    stake s v amount now false =
      { updateTrackers (stakeShortcut s v) v now false with
          voterStakes :=
            Function.update (updateTrackers (stakeShortcut s v) v now false).voterStakes v
              { (updateTrackers (stakeShortcut s v) v now false).voterStakes v with
                  activeStake :=
                    ((updateTrackers (stakeShortcut s v) v now false).voterStakes v).activeStake
                      + amount }
          cumulativeActiveStake :=
            (updateTrackers (stakeShortcut s v) v now false).cumulativeActiveStake + amount } :=
  rfl

theorem inv_stakeShortcut (s : StakerState n) (v : Fin n) (h : Inv s) :
    Inv (stakeShortcut s v) := by
  unfold stakeShortcut
  split
  · exact inv_update_nonstake s v _ rfl rfl h
  · exact h

theorem inv_stake (s : StakerState n) (v : Fin n) (amount now : Nat)
    (reveal : Bool) (h : Inv s) : Inv (stake s v amount now reveal) := by
  have h1 := inv_updateTrackers (stakeShortcut s v) v now reveal
    (inv_stakeShortcut s v h)
  cases reveal with
  | true => rw [stake_true_eq]; exact inv_add_pending _ v amount h1
  | false => rw [stake_false_eq]; exact inv_add_active _ v amount h1

theorem inv_requestUnstake (s r : StakerState n) (v : Fin n) (amount now : Nat)
    (reveal : Bool) (h : Inv s)
    (hr : requestUnstake s v amount now reveal = Except.ok r) : Inv r := by
  have h1 : Inv (updateTrackers s v now reveal) := inv_updateTrackers s v now reveal h
  simp only [requestUnstake] at hr
  split at hr
  · exact absurd hr (by simp)
  · generalize hG : updateTrackers s v now reveal = s1 at hr h1
    split at hr
    · split at hr
      · rename_i hle hpu
        injection hr with hr
        subst hr
        obtain ⟨ha, hp⟩ := h1
        constructor
        · have hs := sum_proj_update s1.voterStakes v
            { s1.voterStakes v with
                pendingUnstake := amount
                activeStake := (s1.voterStakes v).activeStake - amount
                unstakeRequestTime := now } (fun q => q.activeStake)
          have hle2 := proj_le_sum s1.voterStakes v (fun q => q.activeStake)
          simp only at hs hle2 ⊢
          omega
        · simp only [hp]
          refine (sum_proj_congr _ _ _ ?_).symm
          intro w
          by_cases hw : w = v
          · subst hw; simp
          · simp [Function.update_noteq hw]
      · exact absurd hr (by simp)
    · exact absurd hr (by simp)

theorem inv_executeUnstake (s r : StakerState n) (v : Fin n) (now amt : Nat)
    (reveal : Bool) (h : Inv s)
    (hr : executeUnstake s v now reveal = Except.ok (r, amt)) : Inv r := by
  have h1 : Inv (updateTrackers s v now reveal) := inv_updateTrackers s v now reveal h
  simp only [executeUnstake] at hr
  generalize hG : updateTrackers s v now reveal = s1 at hr h1
  split at hr
  · split at hr
    · injection hr with hr
      injection hr with hr1 hr2
      subst hr1
      exact inv_update_nonstake s1 v _ rfl rfl h1
    · injection hr with hr
      injection hr with hr1 hr2
      subst hr1
      exact h1
  · exact absurd hr (by simp)

theorem inv_withdrawRewards (s : StakerState n) (v : Fin n) (now : Nat)
    (reveal : Bool) (h : Inv s) : Inv (withdrawRewards s v now reveal).1 := by
  have h1 : Inv (updateTrackers s v now reveal) := inv_updateTrackers s v now reveal h
  simp only [withdrawRewards]
  generalize hG : updateTrackers s v now reveal = s1 at h1 ⊢
  split
  · exact inv_update_nonstake s1 v _ rfl rfl h1
  · exact h1

theorem inv_step (s : StakerState n) (op : Op n) (h : Inv s) : Inv (step s op) := by
  cases op with
  | stake v amount now reveal => exact inv_stake s v amount now reveal h
  | requestUnstake v amount now reveal =>
    show Inv (match requestUnstake s v amount now reveal with
      | Except.ok s1 => s1
      | Except.error _ => s)
    cases hr : requestUnstake s v amount now reveal with
    | ok r => exact inv_requestUnstake s r v amount now reveal h hr
    | error e => exact h
  | executeUnstake v now reveal =>
    show Inv (match executeUnstake s v now reveal with
      | Except.ok (s1, _) => s1
      | Except.error _ => s)
    cases hr : executeUnstake s v now reveal with
    | ok p =>
      obtain ⟨r, amt⟩ := p
      exact inv_executeUnstake s r v now amt reveal h hr
    | error e => exact h
  | withdrawRewards v now reveal => exact inv_withdrawRewards s v now reveal h
  | exit v now reveal =>
    show Inv (match Staker.exit s v now reveal with
      | Except.ok (s1, _) => s1
      | Except.error _ => s)
    cases hr : Staker.exit s v now reveal with
    | ok p =>
      obtain ⟨r, amt⟩ := p
      unfold exit at hr
      cases he : executeUnstake s v now reveal with
      | ok q =>
        obtain ⟨q1, q2⟩ := q
        rw [he] at hr
        injection hr with hr
        have hfst : (withdrawRewards q1 v now reveal).1 = r := by rw [hr]
        show Inv r
        rw [← hfst]
        exact inv_withdrawRewards q1 v now reveal
          (inv_executeUnstake s q1 v now q2 reveal h he)
      | error e => rw [he] at hr; exact absurd hr (by simp)
    | error e => exact h
  | setEmissionRate rate now =>
    unfold step setEmissionRate
    have := inv_updateReward s none now h
    exact ⟨this.1, this.2⟩
  | setUnstakeCoolDown d =>
    unfold step setUnstakeCoolDown
    exact ⟨h.1, h.2⟩

theorem inv_run (s : StakerState n) (ops : List (Op n)) (h : Inv s) :
    Inv (run s ops) := by
  induction ops generalizing s with
  | nil => exact h
  | cons op rest ih => exact ih (step s op) (inv_step s op h)

theorem inv_initState (n e c : Nat) : Inv (initState n e c) := by
  constructor <;> simp [initState, initVoterStake]

/-! ### Frame and settlement lemmas -/

theorem rewardPerToken_total_zero (s : StakerState n) (now : Nat)
    (h : getCumulativeStake s = 0) :
    rewardPerToken s now = s.rewardPerTokenStored := by
  unfold rewardPerToken
  rw [if_pos h]

theorem updateReward_frame (s : StakerState n) (v : Fin n) (now : Nat)
    (w : Fin n) (hw : w ≠ v) :
    (updateReward s (some v) now).voterStakes w = s.voterStakes w := by
  unfold updateReward
  simp [Function.update_noteq hw]

theorem updateTrackers_fullframe (s : StakerState n) (v : Fin n) (now : Nat)
    (reveal : Bool) (w : Fin n) (hw : w ≠ v) :
    (updateTrackers s v now reveal).voterStakes w = s.voterStakes w := by
  unfold updateTrackers
  rw [updateActiveStake_frame _ v reveal w hw, updateReward_frame s v now w hw]

theorem stakeShortcut_fields (s : StakerState n) (v : Fin n) :
    (stakeShortcut s v).cumulativeActiveStake = s.cumulativeActiveStake ∧
    (stakeShortcut s v).cumulativePendingStake = s.cumulativePendingStake ∧
    (stakeShortcut s v).rewardPerTokenStored = s.rewardPerTokenStored ∧
    (stakeShortcut s v).lastUpdateTime = s.lastUpdateTime ∧
    (stakeShortcut s v).emissionRate = s.emissionRate ∧
    (stakeShortcut s v).unstakeCoolDown = s.unstakeCoolDown := by
  unfold stakeShortcut
  split <;> exact ⟨rfl, rfl, rfl, rfl, rfl, rfl⟩

theorem stakeShortcut_voter (s : StakerState n) (v w : Fin n) :
    ((stakeShortcut s v).voterStakes w).activeStake = (s.voterStakes w).activeStake ∧
    ((stakeShortcut s v).voterStakes w).pendingStake = (s.voterStakes w).pendingStake ∧
    ((stakeShortcut s v).voterStakes w).pendingUnstake = (s.voterStakes w).pendingUnstake ∧
    ((stakeShortcut s v).voterStakes w).rewardsPaidPerToken
      = (s.voterStakes w).rewardsPaidPerToken ∧
    ((stakeShortcut s v).voterStakes w).outstandingRewards
      = (s.voterStakes w).outstandingRewards ∧
    ((stakeShortcut s v).voterStakes w).unstakeRequestTime
      = (s.voterStakes w).unstakeRequestTime := by
  unfold stakeShortcut
  split
  · by_cases hw : w = v
    · subst hw; simp
    · simp [Function.update_noteq hw]
  · exact ⟨rfl, rfl, rfl, rfl, rfl, rfl⟩

theorem stakeShortcut_views (s : StakerState n) (v : Fin n) (now : Nat) :
    getCumulativeStake (stakeShortcut s v) = getCumulativeStake s ∧
    rewardPerToken (stakeShortcut s v) now = rewardPerToken s now ∧
    getVoterStake (stakeShortcut s v) v = getVoterStake s v := by
  have hf := stakeShortcut_fields s v
  have hv := stakeShortcut_voter s v v
  have hc : getCumulativeStake (stakeShortcut s v) = getCumulativeStake s := by
    unfold getCumulativeStake
    rw [hf.1, hf.2.1]
  refine ⟨hc, ?_, ?_⟩
  · unfold rewardPerToken
    rw [hc, hf.2.2.1, hf.2.2.2.1, hf.2.2.2.2.1]
  · unfold getVoterStake
    rw [hv.1, hv.2.1]

theorem updateTrackers_false_cums (s : StakerState n) (v : Fin n) (now : Nat) :
    (updateTrackers s v now false).cumulativeActiveStake
      = s.cumulativeActiveStake + (s.voterStakes v).pendingStake ∧
    (updateTrackers s v now false).cumulativePendingStake
      = s.cumulativePendingStake - (s.voterStakes v).pendingStake ∧
    ((updateTrackers s v now false).voterStakes v).activeStake
      = (s.voterStakes v).activeStake + (s.voterStakes v).pendingStake ∧
    ((updateTrackers s v now false).voterStakes v).pendingStake = 0 := by
  unfold updateTrackers
  have hr := updateReward_stakeFields s (some v) now v
  have hg := updateReward_globals s (some v) now
  have hf := updateActiveStake_false_fields (updateReward s (some v) now) v
  refine ⟨?_, ?_, ?_, hf.2.1⟩
  · rw [hf.2.2.1, hg.1, hr.2.1]
  · rw [hf.2.2.2, hg.2.1, hr.2.1]
  · rw [hf.1, hr.1, hr.2.1]

theorem updateTrackers_true_fields (s : StakerState n) (v : Fin n) (now : Nat)
    (w : Fin n) :
    ((updateTrackers s v now true).voterStakes w).activeStake
      = (s.voterStakes w).activeStake ∧
    ((updateTrackers s v now true).voterStakes w).pendingStake
      = (s.voterStakes w).pendingStake ∧
    (updateTrackers s v now true).cumulativeActiveStake = s.cumulativeActiveStake ∧
    (updateTrackers s v now true).cumulativePendingStake = s.cumulativePendingStake := by
  unfold updateTrackers
  rw [updateActiveStake_true]
  have hr := updateReward_stakeFields s (some v) now w
  have hg := updateReward_globals s (some v) now
  exact ⟨hr.1, hr.2.1, hg.1, hg.2.1⟩

theorem rewardPerToken_store (s : StakerState n) (now : Nat) :
    rewardPerToken
      { s with rewardPerTokenStored := rewardPerToken s now, lastUpdateTime := now }
      now = rewardPerToken s now :=
  rewardPerToken_settled _ now rfl

theorem updateReward_outstanding (s : StakerState n) (v : Fin n) (now : Nat) :
    ((updateReward s (some v) now).voterStakes v).outstandingRewards
      = outstandingRewards s v now := by
  unfold updateReward
  simp only [Function.update_same]
  show outstandingRewards
      { s with rewardPerTokenStored := rewardPerToken s now, lastUpdateTime := now }
      v now = outstandingRewards s v now
  unfold outstandingRewards getVoterStake
  rw [rewardPerToken_store]

theorem updateTrackers_outstanding (s : StakerState n) (v : Fin n) (now : Nat)
    (reveal : Bool) :
    ((updateTrackers s v now reveal).voterStakes v).outstandingRewards
      = outstandingRewards s v now := by
  unfold updateTrackers
  exact (updateActiveStake_rewardFields _ v reveal v).1.trans
    (updateReward_outstanding s v now)

theorem updateTrackers_paid (s : StakerState n) (v : Fin n) (now : Nat)
    (reveal : Bool) :
    ((updateTrackers s v now reveal).voterStakes v).rewardsPaidPerToken
      = rewardPerToken s now := by
  unfold updateTrackers
  exact (updateActiveStake_rewardFields _ v reveal v).2.1.trans
    (updateReward_paid s v now)

/-! ### Success characterizations of the fallible operations -/

theorem requestUnstake_ok (s r : StakerState n) (v : Fin n) (amount now : Nat)
    (reveal : Bool) (hr : requestUnstake s v amount now reveal = Except.ok r) :
    reveal = false ∧
    amount ≤ ((updateTrackers s v now reveal).voterStakes v).activeStake ∧
    ((updateTrackers s v now reveal).voterStakes v).pendingUnstake = 0 ∧
    r = { updateTrackers s v now reveal with
        cumulativeActiveStake :=
          (updateTrackers s v now reveal).cumulativeActiveStake - amount
        voterStakes :=
          Function.update (updateTrackers s v now reveal).voterStakes v
            { (updateTrackers s v now reveal).voterStakes v with
                pendingUnstake := amount
                activeStake :=
                  ((updateTrackers s v now reveal).voterStakes v).activeStake - amount
                unstakeRequestTime := now } } := by
  cases reveal with
  | true => exact absurd hr (by simp [requestUnstake])
  | false =>
    simp only [requestUnstake] at hr
    rw [if_neg (by simp)] at hr
    split at hr
    · split at hr
      · rename_i hle hpu
        injection hr with hr
        exact ⟨rfl, hle, hpu, hr.symm⟩
      · exact absurd hr (by simp)
    · exact absurd hr (by simp)

theorem requestUnstake_isOk (s : StakerState n) (v : Fin n) (amount now : Nat)
    (reveal : Bool) :
    isOk (requestUnstake s v amount now reveal) = true ↔
      (reveal = false ∧
        amount ≤ ((updateTrackers s v now reveal).voterStakes v).activeStake ∧
        ((updateTrackers s v now reveal).voterStakes v).pendingUnstake = 0) := by
  cases reveal with
  | true => simp [requestUnstake, isOk]
  | false =>
    simp only [requestUnstake] at *
    rw [if_neg (by simp)]
    split
    · split
      · rename_i hle hpu
        simp [isOk, hle, hpu]
      · rename_i hle hpu
        simp [isOk, hpu]
    · rename_i hle
      simp [isOk, hle]

theorem executeUnstake_ok (s r : StakerState n) (v : Fin n) (now amt : Nat)
    (reveal : Bool)
    (hr : executeUnstake s v now reveal = Except.ok (r, amt)) :
    ((updateTrackers s v now reveal).voterStakes v).unstakeRequestTime ≠ 0 ∧
    ((updateTrackers s v now reveal).voterStakes v).unstakeRequestTime
      + s.unstakeCoolDown ≤ now ∧
    amt = ((updateTrackers s v now reveal).voterStakes v).pendingUnstake ∧
    ((0 < amt ∧
        r = { updateTrackers s v now reveal with
            voterStakes :=
              Function.update (updateTrackers s v now reveal).voterStakes v
                { (updateTrackers s v now reveal).voterStakes v with
                    pendingUnstake := 0
                    unstakeRequestTime := 0 } }) ∨
      (amt = 0 ∧ r = updateTrackers s v now reveal)) := by
  have hcd : (updateTrackers s v now reveal).unstakeCoolDown = s.unstakeCoolDown :=
    (updateTrackers_miscFields s v now reveal v).2.2.1
  simp only [executeUnstake] at hr
  split at hr
  · rename_i hcond
    rw [hcd] at hcond
    split at hr
    · rename_i hpos
      injection hr with hr
      injection hr with hr1 hr2
      exact ⟨hcond.1, hcond.2, hr2.symm, Or.inl ⟨hr2 ▸ hpos, hr1.symm⟩⟩
    · rename_i hpos
      injection hr with hr
      injection hr with hr1 hr2
      refine ⟨hcond.1, hcond.2, hr2.symm, Or.inr ⟨?_, hr1.symm⟩⟩
      omega
  · exact absurd hr (by simp)

theorem executeUnstake_isOk (s : StakerState n) (v : Fin n) (now : Nat)
    (reveal : Bool) :
    isOk (executeUnstake s v now reveal) = true ↔
      (((updateTrackers s v now reveal).voterStakes v).unstakeRequestTime ≠ 0 ∧
        ((updateTrackers s v now reveal).voterStakes v).unstakeRequestTime
          + s.unstakeCoolDown ≤ now) := by
  have hcd : (updateTrackers s v now reveal).unstakeCoolDown = s.unstakeCoolDown :=
    (updateTrackers_miscFields s v now reveal v).2.2.1
  simp only [executeUnstake]
  split
  · rename_i hcond
    rw [hcd] at hcond
    split <;> simp [isOk, hcond]
  · rename_i hcond
    rw [hcd] at hcond
    simp [isOk, hcond]

theorem withdrawRewards_snd (s : StakerState n) (v : Fin n) (now : Nat)
    (reveal : Bool) :
    (withdrawRewards s v now reveal).2
      = ((updateTrackers s v now reveal).voterStakes v).outstandingRewards := by
  simp only [withdrawRewards]
  split <;> rfl

theorem withdrawRewards_outstanding_zero (s : StakerState n) (v : Fin n)
    (now : Nat) (reveal : Bool) :
    (((withdrawRewards s v now reveal).1).voterStakes v).outstandingRewards = 0 := by
  simp only [withdrawRewards]
  split
  · simp
  · rename_i hpos
    show ((updateTrackers s v now reveal).voterStakes v).outstandingRewards = 0
    omega

theorem withdrawRewards_zero_noop (s : StakerState n) (v : Fin n) (now : Nat)
    (reveal : Bool) (h : (withdrawRewards s v now reveal).2 = 0) :
    (withdrawRewards s v now reveal).1 = updateTrackers s v now reveal := by
  have hsnd := withdrawRewards_snd s v now reveal
  have hz : ((updateTrackers s v now reveal).voterStakes v).outstandingRewards = 0 := by
    omega
  simp only [withdrawRewards]
  rw [if_neg (by omega)]

theorem withdrawRewards_settled (s : StakerState n) (v : Fin n) (now : Nat)
    (reveal : Bool) :
    ((withdrawRewards s v now reveal).1).rewardPerTokenStored = rewardPerToken s now ∧
    ((withdrawRewards s v now reveal).1).lastUpdateTime = now ∧
    (((withdrawRewards s v now reveal).1).voterStakes v).rewardsPaidPerToken
      = rewardPerToken s now := by
  simp only [withdrawRewards]
  split
  · refine ⟨(updateTrackers_stored s v now reveal).1,
      (updateTrackers_stored s v now reveal).2, ?_⟩
    simp only [Function.update_same]
    exact updateTrackers_paid s v now reveal
  · exact ⟨(updateTrackers_stored s v now reveal).1,
      (updateTrackers_stored s v now reveal).2, updateTrackers_paid s v now reveal⟩

theorem withdrawRewards_stakeFields (s : StakerState n) (v : Fin n) (now : Nat)
    (reveal : Bool) (w : Fin n) :
    (((withdrawRewards s v now reveal).1).voterStakes w).activeStake
      = ((updateTrackers s v now reveal).voterStakes w).activeStake ∧
    (((withdrawRewards s v now reveal).1).voterStakes w).pendingStake
      = ((updateTrackers s v now reveal).voterStakes w).pendingStake := by
  simp only [withdrawRewards]
  split
  · by_cases hw : w = v
    · subst hw; simp
    · simp [Function.update_noteq hw]
  · exact ⟨rfl, rfl⟩

theorem second_settle_zero (s : StakerState n) (v : Fin n) (now : Nat)
    (reveal : Bool) (h0 : (s.voterStakes v).outstandingRewards = 0)
    (h1 : (s.voterStakes v).rewardsPaidPerToken = s.rewardPerTokenStored)
    (h2 : s.lastUpdateTime = now) :
    ((updateTrackers s v now reveal).voterStakes v).outstandingRewards = 0 := by
  rw [updateTrackers_outstanding]
  unfold outstandingRewards
  rw [rewardPerToken_settled s now h2, h1, h0, Nat.sub_self]
  simp

/-! ### Monotonicity of the stored accumulator -/

theorem stored_step_mono (s : StakerState n) (op : Op n) :
    s.rewardPerTokenStored ≤ (step s op).rewardPerTokenStored := by
  cases op with
  | stake v amount now reveal =>
    have h2 := le_rewardPerToken (stakeShortcut s v) now
    have h3 := (stakeShortcut_fields s v).2.2.1
    have h4 := (updateTrackers_stored (stakeShortcut s v) v now reveal).1
    cases reveal with
    | true =>
      show s.rewardPerTokenStored ≤ (stake s v amount now true).rewardPerTokenStored
      rw [stake_true_eq]
      show s.rewardPerTokenStored
        ≤ (updateTrackers (stakeShortcut s v) v now true).rewardPerTokenStored
      omega
    | false =>
      show s.rewardPerTokenStored ≤ (stake s v amount now false).rewardPerTokenStored
      rw [stake_false_eq]
      show s.rewardPerTokenStored
        ≤ (updateTrackers (stakeShortcut s v) v now false).rewardPerTokenStored
      omega
  | requestUnstake v amount now reveal =>
    show s.rewardPerTokenStored ≤ (match requestUnstake s v amount now reveal with
      | Except.ok s1 => s1
      | Except.error _ => s).rewardPerTokenStored
    cases hr : requestUnstake s v amount now reveal with
    | ok r =>
      obtain ⟨hrev, hle, hpu, hre⟩ := requestUnstake_ok s r v amount now reveal hr
      show s.rewardPerTokenStored ≤ r.rewardPerTokenStored
      rw [hre]
      show s.rewardPerTokenStored
        ≤ (updateTrackers s v now reveal).rewardPerTokenStored
      have h4 := (updateTrackers_stored s v now reveal).1
      have h2 := le_rewardPerToken s now
      omega
    | error e => exact Nat.le_refl _
  | executeUnstake v now reveal =>
    show s.rewardPerTokenStored ≤ (match executeUnstake s v now reveal with
      | Except.ok (s1, _) => s1
      | Except.error _ => s).rewardPerTokenStored
    cases hr : executeUnstake s v now reveal with
    | ok p =>
      obtain ⟨r, amt⟩ := p
      obtain ⟨e1, e2, e3, ecase⟩ := executeUnstake_ok s r v now amt reveal hr
      have h4 := (updateTrackers_stored s v now reveal).1
      have h2 := le_rewardPerToken s now
      show s.rewardPerTokenStored ≤ r.rewardPerTokenStored
      have hq : r.rewardPerTokenStored
          = (updateTrackers s v now reveal).rewardPerTokenStored := by
        cases ecase with
        | inl hc => rw [hc.2]
        | inr hc => rw [hc.2]
      omega
    | error e => exact Nat.le_refl _
  | withdrawRewards v now reveal =>
    show s.rewardPerTokenStored
      ≤ ((withdrawRewards s v now reveal).1).rewardPerTokenStored
    have h1 := (withdrawRewards_settled s v now reveal).1
    have h2 := le_rewardPerToken s now
    omega
  | exit v now reveal =>
    show s.rewardPerTokenStored ≤ (match Staker.exit s v now reveal with
      | Except.ok (s1, _) => s1
      | Except.error _ => s).rewardPerTokenStored
    cases hr : Staker.exit s v now reveal with
    | ok p =>
      obtain ⟨r, amt⟩ := p
      unfold exit at hr
      cases he : executeUnstake s v now reveal with
      | ok q =>
        obtain ⟨q1, q2⟩ := q
        rw [he] at hr
        injection hr with hr
        have hfst : (withdrawRewards q1 v now reveal).1 = r := by rw [hr]
        show s.rewardPerTokenStored ≤ r.rewardPerTokenStored
        rw [← hfst]
        have h1 := (withdrawRewards_settled q1 v now reveal).1
        have h2 := le_rewardPerToken q1 now
        obtain ⟨e1, e2, e3, ecase⟩ := executeUnstake_ok s q1 v now q2 reveal he
        have h4 := (updateTrackers_stored s v now reveal).1
        have h5 := le_rewardPerToken s now
        have hq : q1.rewardPerTokenStored
            = (updateTrackers s v now reveal).rewardPerTokenStored := by
          cases ecase with
          | inl hc => rw [hc.2]
          | inr hc => rw [hc.2]
        omega
      | error e => rw [he] at hr; exact absurd hr (by simp)
    | error e => exact Nat.le_refl _
  | setEmissionRate rate now =>
    show s.rewardPerTokenStored ≤ (setEmissionRate s rate now).rewardPerTokenStored
    have h1 := (updateReward_globals s none now).2.2.2.2.1
    have h2 := le_rewardPerToken s now
    show s.rewardPerTokenStored ≤ (updateReward s none now).rewardPerTokenStored
    omega
  | setUnstakeCoolDown d => exact Nat.le_refl _

/-! ### Claim theorems -/

/-- C1: after every finite sequence of ledger operations from the initial
empty state, `cumulativeActiveStake` equals the sum over all voters of
`activeStake`, and `cumulativePendingStake` equals the sum over all voters
of `pendingStake`. -/
theorem cumulative_sums_invariant (n e c : Nat) (ops : List (Op n)) :
    (run (initState n e c) ops).cumulativeActiveStake
      = ∑ w, ((run (initState n e c) ops).voterStakes w).activeStake ∧
    (run (initState n e c) ops).cumulativePendingStake
      = ∑ w, ((run (initState n e c) ops).voterStakes w).pendingStake :=
  inv_run (initState n e c) ops (inv_initState n e c)

/-- C2: for every state and every ledger operation executed at a current
time at or after `lastUpdateTime`, `rewardPerTokenStored` after the
operation is at least its value before the operation. -/
theorem rewardPerTokenStored_monotone (s : StakerState n) (op : Op n)
    (h : ∀ t, opNow op = some t → s.lastUpdateTime ≤ t) :
    s.rewardPerTokenStored ≤ (step s op).rewardPerTokenStored :=
  stored_step_mono s op

/-- Witness for C2 at a concrete input. -/
theorem rewardPerTokenStored_monotone_witness :
    (∀ t, opNow (Op.withdrawRewards (0 : Fin 1) 5 false) = some t
        → (initState 1 2 3).lastUpdateTime ≤ t) ∧
    (initState 1 2 3).rewardPerTokenStored
      ≤ (step (initState 1 2 3) (Op.withdrawRewards 0 5 false)).rewardPerTokenStored := by
  have h : ∀ t, opNow (Op.withdrawRewards (0 : Fin 1) 5 false) = some t
      → (initState 1 2 3).lastUpdateTime ≤ t := by
    intro t ht
    injection ht with ht
    subst ht
    exact Nat.zero_le 5
  exact ⟨h, rewardPerTokenStored_monotone (initState 1 2 3)
    (Op.withdrawRewards 0 5 false) h⟩

/-- C3: whenever the total stake is zero, `rewardPerToken()` returns
`rewardPerTokenStored` unchanged for any current time (the zero-total-stake
case is a defined branch, no division by the zero total is performed). -/
theorem rewardPerToken_zero_total (s : StakerState n) (now : Nat)
    (h : getCumulativeStake s = 0) :
    rewardPerToken s now = s.rewardPerTokenStored :=
  rewardPerToken_total_zero s now h

/-- Witness for C3 at a concrete input. -/
theorem rewardPerToken_zero_total_witness :
    getCumulativeStake (initState 3 7 11) = 0 ∧
    rewardPerToken (initState 3 7 11) 42 = (initState 3 7 11).rewardPerTokenStored :=
  ⟨rfl, rewardPerToken_zero_total (initState 3 7 11) 42 rfl⟩

/-- C4: on a state satisfying the cumulative-sum invariant, `requestUnstake`
fails exactly when in the restricted phase, or the amount exceeds the
post-settlement active stake, or a pending unstake exists; failures leave
the state unchanged, and success moves the amount from active stake to
pending unstake, decrements `cumulativeActiveStake`, stamps
`unstakeRequestTime = now`, and leaves pending stake untouched. -/
theorem requestUnstake_spec (s : StakerState n) (v : Fin n) (amount now : Nat)
    (reveal : Bool) (hinv : Inv s) :
    (isOk (requestUnstake s v amount now reveal) = false ↔
      (reveal = true ∨
        ((updateTrackers s v now reveal).voterStakes v).activeStake < amount ∨
        ((updateTrackers s v now reveal).voterStakes v).pendingUnstake ≠ 0)) ∧
    (isOk (requestUnstake s v amount now reveal) = false →
      step s (Op.requestUnstake v amount now reveal) = s) ∧
    (∀ r, requestUnstake s v amount now reveal = Except.ok r →
      ((r.voterStakes v).activeStake + amount
          = ((updateTrackers s v now reveal).voterStakes v).activeStake ∧
        (r.voterStakes v).pendingUnstake = amount ∧
        r.cumulativeActiveStake + amount
          = (updateTrackers s v now reveal).cumulativeActiveStake ∧
        (r.voterStakes v).unstakeRequestTime = now ∧
        (r.voterStakes v).pendingStake
          = ((updateTrackers s v now reveal).voterStakes v).pendingStake ∧
        r.cumulativePendingStake
          = (updateTrackers s v now reveal).cumulativePendingStake)) := by
  refine ⟨⟨?_, ?_⟩, ?_, ?_⟩
  · intro hfail
    by_contra hcon
    push_neg at hcon
    obtain ⟨h1, h2, h3⟩ := hcon
    have hrf : reveal = false := by
      cases reveal
      · rfl
      · exact absurd rfl h1
    have hok := (requestUnstake_isOk s v amount now reveal).2 ⟨hrf, h2, h3⟩
    rw [hfail] at hok
    exact Bool.noConfusion hok
  · intro hd
    by_contra hcon
    have hok : isOk (requestUnstake s v amount now reveal) = true := by
      cases h : isOk (requestUnstake s v amount now reveal)
      · exact absurd h hcon
      · rfl
    obtain ⟨hrev, hle, hpu⟩ := (requestUnstake_isOk s v amount now reveal).1 hok
    rcases hd with hd | hd | hd
    · rw [hrev] at hd; exact Bool.noConfusion hd
    · omega
    · exact absurd hpu hd
  · intro hfail
    show (match requestUnstake s v amount now reveal with
      | Except.ok s1 => s1
      | Except.error _ => s) = s
    cases hr : requestUnstake s v amount now reveal with
    | ok r =>
      rw [hr] at hfail
      exact absurd hfail (by simp [isOk])
    | error e => rfl
  · intro r hr
    obtain ⟨hrev, hle, hpu, hre⟩ := requestUnstake_ok s r v amount now reveal hr
    have hinvT := inv_updateTrackers s v now reveal hinv
    have hbound := proj_le_sum (updateTrackers s v now reveal).voterStakes v
      (fun q => q.activeStake)
    have hcum := hinvT.1
    subst hre
    refine ⟨?_, ?_, ?_, ?_, ?_, ?_⟩
    · simp only [Function.update_same]
      omega
    · simp only [Function.update_same]
    · show (updateTrackers s v now reveal).cumulativeActiveStake - amount + amount
        = (updateTrackers s v now reveal).cumulativeActiveStake
      simp only at hbound
      omega
    · simp only [Function.update_same]
    · simp only [Function.update_same]
    · rfl

/-- Witness for C4 at a concrete input. -/
theorem requestUnstake_spec_witness :
    Inv (initState 1 0 0) ∧
    (isOk (requestUnstake (initState 1 0 0) (0 : Fin 1) 5 7 false) = false ↔
      (false = true ∨
        ((updateTrackers (initState 1 0 0) 0 7 false).voterStakes 0).activeStake < 5 ∨
        ((updateTrackers (initState 1 0 0) 0 7 false).voterStakes 0).pendingUnstake
          ≠ 0)) := by
  have hinv := inv_initState 1 0 0
  exact ⟨hinv, ((requestUnstake_spec (initState 1 0 0) 0 5 7 false hinv).1)⟩

/-- C5 counterexample: from the reachable state produced by staking 100 at
time 0 and requesting a zero-amount unstake at time 1 (cooldown 5),
`executeUnstake` at time 10 succeeds and transfers nothing, but leaves
`unstakeRequestTime = 1` instead of zeroing it, contradicting the claim
that whenever the cooldown condition holds the call zeroes both
`pendingUnstake` and `unstakeRequestTime`. -/
theorem executeUnstake_zero_request_counterexample :
    (okValue (executeUnstake (run (initState 1 0 5)
        [Op.stake 0 100 0 false, Op.requestUnstake 0 0 1 false])
        (0 : Fin 1) 10 false)).map
      (fun p => ((p.1.voterStakes 0).unstakeRequestTime, p.2)) = some (1, 0) := by
  decide

/-- C5 (amended): `executeUnstake` fails exactly when no request time is
stamped or the cooldown has not elapsed, and failure leaves the state
unchanged.  On success it transfers the pending unstake amount: when that
amount is positive it zeroes both `pendingUnstake` and `unstakeRequestTime`
(so an immediate repeat call fails); when the amount is zero it transfers
nothing and leaves the settled state unchanged, `unstakeRequestTime`
included. -/
theorem executeUnstake_spec (s : StakerState n) (v : Fin n) (now : Nat)
    (reveal : Bool) :
    (isOk (executeUnstake s v now reveal) = false ↔
      (((updateTrackers s v now reveal).voterStakes v).unstakeRequestTime = 0 ∨
        now < ((updateTrackers s v now reveal).voterStakes v).unstakeRequestTime
          + s.unstakeCoolDown)) ∧
    (isOk (executeUnstake s v now reveal) = false →
      step s (Op.executeUnstake v now reveal) = s) ∧
    (∀ r amt, executeUnstake s v now reveal = Except.ok (r, amt) →
      (amt = ((updateTrackers s v now reveal).voterStakes v).pendingUnstake ∧
        (0 < amt →
          (r.voterStakes v).pendingUnstake = 0 ∧
          (r.voterStakes v).unstakeRequestTime = 0 ∧
          isOk (executeUnstake r v now reveal) = false) ∧
        (amt = 0 → r = updateTrackers s v now reveal))) := by
  refine ⟨⟨?_, ?_⟩, ?_, ?_⟩
  · intro hfail
    by_contra hcon
    push_neg at hcon
    have hok := (executeUnstake_isOk s v now reveal).2 ⟨hcon.1, hcon.2⟩
    rw [hfail] at hok
    exact Bool.noConfusion hok
  · intro hd
    by_contra hcon
    have hok : isOk (executeUnstake s v now reveal) = true := by
      cases h : isOk (executeUnstake s v now reveal)
      · exact absurd h hcon
      · rfl
    obtain ⟨h1, h2⟩ := (executeUnstake_isOk s v now reveal).1 hok
    rcases hd with hd | hd
    · exact absurd hd h1
    · omega
  · intro hfail
    show (match executeUnstake s v now reveal with
      | Except.ok (s1, _) => s1
      | Except.error _ => s) = s
    cases hr : executeUnstake s v now reveal with
    | ok p =>
      rw [hr] at hfail
      exact absurd hfail (by simp [isOk])
    | error e => rfl
  · intro r amt hr
    obtain ⟨e1, e2, e3, ecase⟩ := executeUnstake_ok s r v now amt reveal hr
    refine ⟨e3, ?_, ?_⟩
    · intro hpos
      cases ecase with
      | inl hc =>
        have hurt : (r.voterStakes v).unstakeRequestTime = 0 := by
          rw [hc.2]
          simp [Function.update_same]
        have hpen : (r.voterStakes v).pendingUnstake = 0 := by
          rw [hc.2]
          simp [Function.update_same]
        refine ⟨hpen, hurt, ?_⟩
        cases h : isOk (executeUnstake r v now reveal) with
        | false => rfl
        | true =>
          obtain ⟨hne, _⟩ := (executeUnstake_isOk r v now reveal).1 h
          rw [(updateTrackers_miscFields r v now reveal v).2.1, hurt] at hne
          exact absurd rfl hne
      | inr hc => omega
    · intro h0
      cases ecase with
      | inl hc => omega
      | inr hc => exact hc.2

/-- Witness for the amended C5 at a concrete input. -/
theorem executeUnstake_spec_witness :
    isOk (executeUnstake (initState 1 0 5) (0 : Fin 1) 10 false) = false ↔
      (((updateTrackers (initState 1 0 5) (0 : Fin 1) 10 false).voterStakes
          0).unstakeRequestTime = 0 ∨
        10 < ((updateTrackers (initState 1 0 5) (0 : Fin 1) 10
            false).voterStakes 0).unstakeRequestTime
          + (initState 1 0 5).unstakeCoolDown) :=
  (executeUnstake_spec (initState 1 0 5) 0 10 false).1

/-- C6 counterexample: in the reachable state where a voter staked 100 at
time 0 (emission rate 1, cooldown 10) and has no unstake request, calling
`exit` at time 5 reverts entirely because `executeUnstake`'s precondition
is unmet — the reward withdrawal is not performed, even though
`withdrawRewards` alone would pay 5 at that state.  This contradicts the
claim that each half of `exit` independently no-ops. -/
theorem exit_no_partial_counterexample :
    isOk (Staker.exit (run (initState 1 1 10) [Op.stake 0 100 0 false])
        (0 : Fin 1) 5 false) = false ∧
    (withdrawRewards (run (initState 1 1 10) [Op.stake 0 100 0 false])
        (0 : Fin 1) 5 false).2 = 5 := by
  constructor <;> decide

/-- C6 (amended): `exit` is `executeUnstake` followed by `withdrawRewards`,
but the composition is not failure-isolating: `exit` fails exactly when
`executeUnstake` fails, in which case the whole call reverts with no state
change and the reward withdrawal is not performed; when `executeUnstake`
succeeds, the reward withdrawal also runs, leaving no outstanding
rewards. -/
theorem exit_spec (s : StakerState n) (v : Fin n) (now : Nat) (reveal : Bool) :
    (isOk (Staker.exit s v now reveal) = isOk (executeUnstake s v now reveal)) ∧
    (isOk (executeUnstake s v now reveal) = false →
      step s (Op.exit v now reveal) = s) ∧
    (∀ r amt, Staker.exit s v now reveal = Except.ok (r, amt) →
      (r.voterStakes v).outstandingRewards = 0 ∧
      ∃ q qamt, executeUnstake s v now reveal = Except.ok (q, qamt) ∧
        (r, amt) = withdrawRewards q v now reveal) := by
  refine ⟨?_, ?_, ?_⟩
  · show isOk (match executeUnstake s v now reveal with
      | Except.error e => Except.error e
      | Except.ok (s1, _) => Except.ok (withdrawRewards s1 v now reveal))
      = isOk (executeUnstake s v now reveal)
    cases he : executeUnstake s v now reveal with
    | ok q =>
      obtain ⟨q1, q2⟩ := q
      rfl
    | error e => rfl
  · intro hfail
    show (match Staker.exit s v now reveal with
      | Except.ok (s1, _) => s1
      | Except.error _ => s) = s
    cases he : executeUnstake s v now reveal with
    | ok p =>
      rw [he] at hfail
      exact absurd hfail (by simp [isOk])
    | error e =>
      have hex : Staker.exit s v now reveal = Except.error e := by
        unfold exit
        rw [he]
      rw [hex]
  · intro r amt hr
    unfold exit at hr
    cases he : executeUnstake s v now reveal with
    | error e => rw [he] at hr; exact absurd hr (by simp)
    | ok q =>
      obtain ⟨q1, q2⟩ := q
      rw [he] at hr
      injection hr with hr
      have hfst : (withdrawRewards q1 v now reveal).1 = r := by rw [hr]
      refine ⟨?_, q1, q2, rfl, hr.symm⟩
      rw [← hfst]
      exact withdrawRewards_outstanding_zero q1 v now reveal

/-- Witness for the amended C6 at a concrete input. -/
theorem exit_spec_witness :
    isOk (Staker.exit (initState 1 2 3) (0 : Fin 1) 4 false)
      = isOk (executeUnstake (initState 1 2 3) (0 : Fin 1) 4 false) :=
  (exit_spec (initState 1 2 3) 0 4 false).1

/-- C7: `withdrawRewards` settles, returns the settled outstanding rewards
and zeroes the stored field; an immediate second call (same time, no other
operations) therefore pays zero, and a call when nothing is owed leaves
the settled state unchanged and returns zero. -/
theorem withdrawRewards_spec (s : StakerState n) (v : Fin n) (now : Nat)
    (reveal : Bool) :
    (withdrawRewards s v now reveal).2
        = ((updateTrackers s v now reveal).voterStakes v).outstandingRewards ∧
    (((withdrawRewards s v now reveal).1).voterStakes v).outstandingRewards = 0 ∧
    (withdrawRewards ((withdrawRewards s v now reveal).1) v now reveal).2 = 0 ∧
    ((withdrawRewards s v now reveal).2 = 0 →
      (withdrawRewards s v now reveal).1 = updateTrackers s v now reveal) := by
  refine ⟨withdrawRewards_snd s v now reveal,
    withdrawRewards_outstanding_zero s v now reveal, ?_,
    withdrawRewards_zero_noop s v now reveal⟩
  rw [withdrawRewards_snd]
  exact second_settle_zero _ v now reveal
    (withdrawRewards_outstanding_zero s v now reveal)
    ((withdrawRewards_settled s v now reveal).2.2.trans
      (withdrawRewards_settled s v now reveal).1.symm)
    (withdrawRewards_settled s v now reveal).2.1

/-- Witness for C7 at a concrete input. -/
theorem withdrawRewards_spec_witness :
    (withdrawRewards (initState 1 4 0) (0 : Fin 1) 9 false).2
      = ((updateTrackers (initState 1 4 0) (0 : Fin 1) 9 false).voterStakes
          0).outstandingRewards :=
  (withdrawRewards_spec (initState 1 4 0) 0 9 false).1

/-! ### Exact arithmetic for the single-staker scenario -/

theorem scale_div_hundred (x : Nat) : x * SCALE / 100 = x * 10000000000000000 := by
  have h : x * SCALE = x * 10000000000000000 * 100 := by
    unfold SCALE
    ring
  rw [h]
  exact Nat.mul_div_cancel _ (by norm_num)

theorem hundred_scale_div (x : Nat) :
    100 * (x * 10000000000000000) / SCALE = x := by
  have h : (100 : Nat) * (x * 10000000000000000) = x * SCALE := by
    unfold SCALE
    ring
  rw [h]
  exact Nat.mul_div_cancel _ (by unfold SCALE; norm_num)

/-- C8: a single voter staking 100 units into the otherwise empty ledger
outside the restricted phase, then withdrawing after `dt` time units at
emission rate `r`, receives exactly `r * dt` (the `1e18` fixed-point
arithmetic is lossless here) and their stored outstanding rewards reset
to zero. -/
theorem single_staker_reward (n r c dt t0 : Nat) (v : Fin n) :
    (withdrawRewards (stake (initState n r c) v 100 t0 false) v (t0 + dt)
        false).2 = r * dt ∧
    (((withdrawRewards (stake (initState n r c) v 100 t0 false) v (t0 + dt)
        false).1).voterStakes v).outstandingRewards = 0 := by
  have hfields := stakeShortcut_fields (initState n r c) v
  have hvoter := stakeShortcut_voter (initState n r c) v v
  have hc0 : getCumulativeStake (stakeShortcut (initState n r c) v) = 0 := by
    unfold getCumulativeStake
    rw [hfields.1, hfields.2.1]
    rfl
  have hR : rewardPerToken (stakeShortcut (initState n r c) v) t0 = 0 := by
    rw [rewardPerToken_total_zero _ t0 hc0, hfields.2.2.1]
    rfl
  have hcums := updateTrackers_false_cums (stakeShortcut (initState n r c) v) v t0
  have hTcumA : (updateTrackers (stakeShortcut (initState n r c) v) v t0
      false).cumulativeActiveStake = 0 := by
    rw [hcums.1, hfields.1, hvoter.2.1]
    rfl
  have hTcumP : (updateTrackers (stakeShortcut (initState n r c) v) v t0
      false).cumulativePendingStake = 0 := by
    rw [hcums.2.1, hfields.2.1, hvoter.2.1]
    rfl
  have hTstored : (updateTrackers (stakeShortcut (initState n r c) v) v t0
      false).rewardPerTokenStored = 0 := by
    rw [(updateTrackers_stored _ v t0 false).1, hR]
  have hTlast : (updateTrackers (stakeShortcut (initState n r c) v) v t0
      false).lastUpdateTime = t0 := (updateTrackers_stored _ v t0 false).2
  have hTemit : (updateTrackers (stakeShortcut (initState n r c) v) v t0
      false).emissionRate = r := by
    rw [(updateTrackers_miscFields _ v t0 false v).2.2.2, hfields.2.2.2.2.1]
    rfl
  have hTactive : ((updateTrackers (stakeShortcut (initState n r c) v) v t0
      false).voterStakes v).activeStake = 0 := by
    rw [hcums.2.2.1, hvoter.1, hvoter.2.1]
    rfl
  have hTpending : ((updateTrackers (stakeShortcut (initState n r c) v) v t0
      false).voterStakes v).pendingStake = 0 := hcums.2.2.2
  have hTpaid : ((updateTrackers (stakeShortcut (initState n r c) v) v t0
      false).voterStakes v).rewardsPaidPerToken = 0 := by
    rw [updateTrackers_paid, hR]
  have hTout : ((updateTrackers (stakeShortcut (initState n r c) v) v t0
      false).voterStakes v).outstandingRewards = 0 := by
    rw [updateTrackers_outstanding]
    unfold outstandingRewards getVoterStake
    rw [hvoter.1, hvoter.2.1, hvoter.2.2.2.2.1]
    simp [initState, initVoterStake]
  constructor
  · rw [withdrawRewards_snd, updateTrackers_outstanding]
    unfold outstandingRewards getVoterStake rewardPerToken getCumulativeStake
    rw [stake_false_eq]
    simp only [Function.update_same]
    rw [hTcumA, hTcumP, hTstored, hTlast, hTemit, hTactive, hTpending, hTpaid,
      hTout]
    rw [if_neg (by omega)]
    simp only [Nat.add_sub_cancel_left, Nat.zero_add, Nat.add_zero,
      Nat.sub_zero]
    rw [scale_div_hundred (dt * r), hundred_scale_div (dt * r)]
    exact Nat.mul_comm dt r
  · exact withdrawRewards_outstanding_zero _ v _ false

theorem stakeShortcut_frame (s : StakerState n) (v w : Fin n) (hw : w ≠ v) :
    (stakeShortcut s v).voterStakes w = s.voterStakes w := by
  unfold stakeShortcut
  split
  · simp [Function.update_noteq hw]
  · rfl

/-- C9: a stake submitted during the restricted phase goes entirely to the
caller's pending stake and to `cumulativePendingStake` with active stake
untouched; once the phase has ended, the per-voter settlement performed at
the start of every ledger operation (instanced here by `withdrawRewards`)
moves that voter's entire pending stake to active stake and shifts the
cumulative counters by the same amount, while every other voter's record is
untouched — promotion is lazy and per-voter, not a global sweep. -/
theorem restricted_stake_promotion (s : StakerState n) (v : Fin n)
    (amount now now2 : Nat) :
    ((stake s v amount now true).voterStakes v).pendingStake
        = (s.voterStakes v).pendingStake + amount ∧
    (stake s v amount now true).cumulativePendingStake
        = s.cumulativePendingStake + amount ∧
    ((stake s v amount now true).voterStakes v).activeStake
        = (s.voterStakes v).activeStake ∧
    (stake s v amount now true).cumulativeActiveStake = s.cumulativeActiveStake ∧
    ((updateTrackers s v now2 false).voterStakes v).pendingStake = 0 ∧
    ((updateTrackers s v now2 false).voterStakes v).activeStake
        = (s.voterStakes v).activeStake + (s.voterStakes v).pendingStake ∧
    (updateTrackers s v now2 false).cumulativeActiveStake
        = s.cumulativeActiveStake + (s.voterStakes v).pendingStake ∧
    (updateTrackers s v now2 false).cumulativePendingStake
        = s.cumulativePendingStake - (s.voterStakes v).pendingStake ∧
    (∀ w, w ≠ v →
      (updateTrackers s v now2 false).voterStakes w = s.voterStakes w) ∧
    (∀ w, w ≠ v → (stake s v amount now true).voterStakes w = s.voterStakes w) ∧
    ((withdrawRewards s v now2 false).1.voterStakes v).pendingStake = 0 ∧
    ((withdrawRewards s v now2 false).1.voterStakes v).activeStake
        = (s.voterStakes v).activeStake + (s.voterStakes v).pendingStake := by
  have htv := updateTrackers_true_fields (stakeShortcut s v) v now v
  have hsv := stakeShortcut_voter s v v
  have hsf := stakeShortcut_fields s v
  have hfc := updateTrackers_false_cums s v now2
  refine ⟨?_, ?_, ?_, ?_, hfc.2.2.2, hfc.2.2.1, hfc.1, hfc.2.1, ?_, ?_, ?_, ?_⟩
  · rw [stake_true_eq]
    simp only [Function.update_same]
    rw [htv.2.1, hsv.2.1]
  · rw [stake_true_eq]
    show (updateTrackers (stakeShortcut s v) v now true).cumulativePendingStake
        + amount = s.cumulativePendingStake + amount
    rw [htv.2.2.2, hsf.2.1]
  · rw [stake_true_eq]
    simp only [Function.update_same]
    rw [htv.1, hsv.1]
  · rw [stake_true_eq]
    show (updateTrackers (stakeShortcut s v) v now true).cumulativeActiveStake
        = s.cumulativeActiveStake
    rw [htv.2.2.1, hsf.1]
  · exact fun w hw => updateTrackers_fullframe s v now2 false w hw
  · intro w hw
    rw [stake_true_eq]
    simp only [Function.update_noteq hw]
    rw [updateTrackers_fullframe _ v now true w hw, stakeShortcut_frame s v w hw]
  · rw [(withdrawRewards_stakeFields s v now2 false v).2]
    exact hfc.2.2.2
  · rw [(withdrawRewards_stakeFields s v now2 false v).1]
    exact hfc.2.2.1

/-- Witness for C9 at a concrete input. -/
theorem restricted_stake_promotion_witness :
    ((stake (initState 2 0 0) (0 : Fin 2) 9 3 true).voterStakes 0).pendingStake
      = ((initState 2 0 0).voterStakes (0 : Fin 2)).pendingStake + 9 :=
  (restricted_stake_promotion (initState 2 0 0) 0 9 3 4).1

/-- C10: outside the restricted phase a voter with no pending unstake can
call `requestUnstake(0)`: it succeeds and stamps `unstakeRequestTime = now`
while `pendingUnstake` stays zero; the stamped request does not block a
later `requestUnstake` of any affordable amount, and an `executeUnstake`
after the cooldown succeeds, transfers nothing, and leaves the nonzero
`unstakeRequestTime` in place (it is reset only when tokens are sent). -/
theorem requestUnstake_zero_spec (s : StakerState n) (v : Fin n)
    (amount now now2 now3 : Nat)
    (hpu : (s.voterStakes v).pendingUnstake = 0) (hnow : now ≠ 0) :
    ∃ r, requestUnstake s v 0 now false = Except.ok r ∧
      (r.voterStakes v).unstakeRequestTime = now ∧
      (r.voterStakes v).pendingUnstake = 0 ∧
      (amount ≤ ((updateTrackers r v now2 false).voterStakes v).activeStake →
        isOk (requestUnstake r v amount now2 false) = true) ∧
      (now + s.unstakeCoolDown ≤ now3 →
        ∃ r2, executeUnstake r v now3 false = Except.ok (r2, 0) ∧
          (r2.voterStakes v).unstakeRequestTime = now ∧
          (r2.voterStakes v).unstakeRequestTime ≠ 0) := by
  cases hq : requestUnstake s v 0 now false with
  | error e =>
    have hok : isOk (requestUnstake s v 0 now false) = true :=
      (requestUnstake_isOk s v 0 now false).2
        ⟨rfl, Nat.zero_le _, by
          rw [(updateTrackers_miscFields s v now false v).1]; exact hpu⟩
    rw [hq] at hok
    exact absurd hok (by simp [isOk])
  | ok r =>
    obtain ⟨_, _, _, hre⟩ := requestUnstake_ok s r v 0 now false hq
    have hurt : (r.voterStakes v).unstakeRequestTime = now := by
      rw [hre]
      simp [Function.update_same]
    have hrpu : (r.voterStakes v).pendingUnstake = 0 := by
      rw [hre]
      simp [Function.update_same]
    have hrcd : r.unstakeCoolDown = s.unstakeCoolDown := by
      rw [hre]
      show (updateTrackers s v now false).unstakeCoolDown = s.unstakeCoolDown
      exact (updateTrackers_miscFields s v now false v).2.2.1
    refine ⟨r, rfl, hurt, hrpu, ?_, ?_⟩
    · intro hle
      exact (requestUnstake_isOk r v amount now2 false).2
        ⟨rfl, hle, by
          rw [(updateTrackers_miscFields r v now2 false v).1]; exact hrpu⟩
    · intro hcd
      have hcond : ((updateTrackers r v now3 false).voterStakes
            v).unstakeRequestTime ≠ 0 ∧
          ((updateTrackers r v now3 false).voterStakes v).unstakeRequestTime
            + r.unstakeCoolDown ≤ now3 := by
        rw [(updateTrackers_miscFields r v now3 false v).2.1, hurt, hrcd]
        exact ⟨hnow, hcd⟩
      cases he : executeUnstake r v now3 false with
      | error e =>
        have hok : isOk (executeUnstake r v now3 false) = true :=
          (executeUnstake_isOk r v now3 false).2 hcond
        rw [he] at hok
        exact absurd hok (by simp [isOk])
      | ok p =>
        obtain ⟨r2, amt⟩ := p
        obtain ⟨e1, e2, e3, ecase⟩ := executeUnstake_ok r r2 v now3 amt false he
        have hamt : amt = 0 := by
          rw [e3, (updateTrackers_miscFields r v now3 false v).1]
          exact hrpu
        cases ecase with
        | inl hc => exact absurd hamt (by omega)
        | inr hc =>
          have hr2 : (r2.voterStakes v).unstakeRequestTime = now := by
            rw [hc.2, (updateTrackers_miscFields r v now3 false v).2.1, hurt]
          refine ⟨r2, ?_, hr2, ?_⟩
          · rw [← hamt]
          · rw [hr2]
            exact hnow

/-- Witness for C10 at a concrete input. -/
theorem requestUnstake_zero_spec_witness :
    ((initState 1 0 5).voterStakes (0 : Fin 1)).pendingUnstake = 0 ∧
    (3 : Nat) ≠ 0 ∧
    (∃ r, requestUnstake (initState 1 0 5) (0 : Fin 1) 0 3 false
        = Except.ok r ∧
      (r.voterStakes 0).unstakeRequestTime = 3 ∧
      (r.voterStakes 0).pendingUnstake = 0 ∧
      (7 ≤ ((updateTrackers r (0 : Fin 1) 4 false).voterStakes 0).activeStake →
        isOk (requestUnstake r (0 : Fin 1) 7 4 false) = true) ∧
      (3 + (initState 1 0 5).unstakeCoolDown ≤ 20 →
        ∃ r2, executeUnstake r (0 : Fin 1) 20 false = Except.ok (r2, 0) ∧
          (r2.voterStakes 0).unstakeRequestTime = 3 ∧
          (r2.voterStakes 0).unstakeRequestTime ≠ 0)) :=
  ⟨rfl, by decide,
    requestUnstake_zero_spec (initState 1 0 5) 0 7 3 4 20 rfl (by decide)⟩

end Staker
